import Mathlib

/-!
Shallow embedding of `src/mnist_classification/main.py`, an experiment-tracking
script that trains a small MLP on a subsampled MNIST dataset for five trials and
logs metrics to a dashboard (wandb).

Modelling conventions:
* Tensors of labels/images are Lean lists; an example is a `Sample` (abstract
  image payload plus integer class label, as in `torchvision.datasets.MNIST`).
* `torch.utils.data.Subset` is embedded as `Subset` (base list + index list,
  with `len` = length of the index list and item access through the indices).
* A `DataLoader` is a `Loader`: its dataset, batch size and shuffle flag;
  iterating it yields consecutive chunks of `batch_size` items (`drop_last`
  defaults to false, so the final chunk may be short).  The per-epoch shuffle
  of the training loader is an explicit permutation parameter `perm`.
* Machine floats are embedded as exact rationals `ℚ`.
* The network itself (matrix multiplies, batch-norm statistics, dropout masks,
  autograd, Adam) is an external numeric collaborator: a `Model` carries its
  trainable parameters, its train/eval mode flag and an abstract forward
  function; the optimizer update is an abstract state-passing function.  The
  layer structure built by `get_model` is embedded symbolically as `Layer`s
  with a shape semantics.
* Calls to the experiment logger (`wandb.log`, the predictions table,
  `wandb.summary`, `wandb.finish`) are recorded as a trace of `WEvent`s.
-/

namespace Mnist

/-- A labeled example: abstract image payload and an integer class label. -/
structure Sample (α : Type) where
  image : α
  label : Nat
deriving DecidableEq

/-- Embedding of `torch.utils.data.Subset`: a base dataset and a list of
indices into it.  `len(Subset)` is the length of the index list, and item `i`
is `base[indices[i]]`. -/
structure Subset (α : Type) where
  base : List α
  indices : List Nat
deriving DecidableEq

/-- `len` of a torch `Subset`: the number of indices. -/
def Subset.length (s : Subset α) : Nat := s.indices.length

/-- `Subset.__getitem__`: `self.dataset[self.indices[idx]]` (None on
out-of-range access). -/
def Subset.getItem (s : Subset α) (i : Nat) : Option α :=
  (s.indices[i]?).bind fun j => s.base[j]?

/-- The materialized items of the subset, in index order (invalid indices
contribute nothing; in the program all indices are valid). -/
def Subset.items (s : Subset α) : List α :=
  s.indices.filterMap fun j => s.base[j]?

/-- Python `range(0, n, k)` for stride `k > 0`: the indices
`0, k, 2k, ...` below `n`; its length is `⌈n / k⌉ = (n + k - 1) / k`. -/
def stride_indices (n k : Nat) : List Nat :=
  (List.range ((n + k - 1) / k)).map fun i => i * k

/-- The default of the `step` parameter of `get_dataloader` (`step=5`). -/
def defaultStep : Nat := 5

/-- A `DataLoader` as configured by `get_dataloader`: the (sub)dataset, the
batch size, and the shuffle flag (`shuffle=bool(is_train)`).  `pin_memory` and
`num_workers` have no observable effect on the values computed. -/
structure Loader (α : Type) where
  dataset : Subset (Sample α)
  batch_size : Nat
  shuffle : Bool
deriving DecidableEq

/-- `get_dataloader(is_train, batch_size, step)`: subsample the full dataset at
indices `range(0, len(full_dataset), step)` and wrap it in a loader.  The full
dataset (fetched from torchvision in the source) is passed explicitly. -/
def get_dataloader (full : List (Sample α)) (is_train : Bool)
    (batch_size step : Nat) : Loader α :=
  { dataset := { base := full, indices := stride_indices full.length step }
    batch_size := batch_size
    shuffle := is_train }

/-- Fuel-driven batching: split a list into consecutive chunks of `bs`
elements (the last chunk may be shorter).  Fuel bounds the recursion so the
definition is structural; `xs.length` fuel always suffices for `bs > 0`. -/
def chunkAux (bs : Nat) : Nat → List α → List (List α)
  | 0, _ => []
  | _, [] => []
  | fuel + 1, x :: xs => ((x :: xs).take bs) :: chunkAux bs fuel ((x :: xs).drop bs)

/-- The batches a `DataLoader` with batch size `bs` and `drop_last=False`
yields over a dataset `xs` (empty for the degenerate `bs = 0`, which torch
rejects outright). -/
def chunk (bs : Nat) (xs : List α) : List (List α) :=
  if bs = 0 then [] else chunkAux bs xs.length xs

/-- The batches yielded by iterating a (non-shuffling) loader. -/
def Loader.batches (dl : Loader α) : List (List (Sample α)) :=
  chunk dl.batch_size dl.dataset.items

/-- Index of the (first) maximal entry, as in `torch.max(outputs, 1).indices`
applied to one row of logits. -/
def argmaxAux : List ℚ → Nat → Nat → ℚ → Nat
  | [], _, best, _ => best
  | x :: xs, i, best, bestVal =>
      if bestVal < x then argmaxAux xs (i + 1) i x
      else argmaxAux xs (i + 1) best bestVal

/-- Arg-max over a row of logits (0 on an empty row). -/
def argmax : List ℚ → Nat
  | [] => 0
  | x :: xs => argmaxAux xs 1 0 x

/-- `(predicted == labels).sum().item()`: the number of positions where the
prediction equals the label. -/
def countCorrect (predicted labels : List Nat) : Nat :=
  (predicted.zip labels).countP fun q => q.1 == q.2

/-- The model as a stateful numeric object: trainable parameters, the
train/eval mode flag (`model.train()` / `model.eval()`), and an abstract
forward function (mode → parameters → image → logits) standing for the
network's numerics. -/
structure Model (α : Type) where
  params : List ℚ
  training : Bool
  forward : Bool → List ℚ → α → List ℚ

/-- `model.eval()`: switch to evaluation mode; parameters untouched. -/
def Model.eval (m : Model α) : Model α := { m with training := false }

/-- `model.train()`: switch to training mode; parameters untouched. -/
def Model.train (m : Model α) : Model α := { m with training := true }

/-- One row of logits for each sample of a batch, under the model's current
mode and parameters. -/
def batchOutputs (m : Model α) (batch : List (Sample α)) : List (List ℚ) :=
  batch.map fun s => m.forward m.training m.params s.image

/-- The label column of a batch. -/
def batchLabels (batch : List (Sample α)) : List Nat :=
  batch.map Sample.label

/-- One observable interaction with the experiment logger (wandb). -/
inductive WEvent where
  /-- `wandb.init(project=..., config=...)`. -/
  | init : WEvent
  /-- `wandb.log(dict, commit=...)` of a dict of named scalars. -/
  | log (data : List (String × ℚ)) (commit : Bool) : WEvent
  /-- `wandb.log({"predictions_table": table}, commit=False)` of a table with
  the given number of rows. -/
  | logTable (rows : Nat) (commit : Bool) : WEvent
  /-- `wandb.summary[key] = value`. -/
  | summary (key : String) (value : ℚ) : WEvent
  /-- `wandb.finish()`. -/
  | finish : WEvent
deriving DecidableEq

/-- `log_image_table(images, predicted, labels, probs)`: build a wandb table
with one row of (image, prediction, target, per-class scores) per sample and
submit it uncommitted.  Only the row count and the commit flag are observable
in the event trace; the per-class softmax scores are part of the abstract
numeric collaborator. -/
def log_image_table (images : List α) (predicted labels : List Nat)
    (probs : List (List ℚ)) : WEvent :=
  WEvent.logTable images.length false

/-- The validation loop of `validate_model`, with the running loss, the
running correct count, the emitted logger events, and `i` the `enumerate`
index.  Mirrors:
`val_loss += loss_func(outputs, labels) * labels.size(0)`,
`correct += (predicted == labels).sum().item()`, and the
`if i == batch_idx and log_images: log_image_table(...)` branch. -/
def valLoop (m : Model α) (loss_func : List (List ℚ) → List Nat → ℚ)
    (log_images : Bool) (batch_idx : Nat) :
    Nat → ℚ → Nat → List WEvent → List (List (Sample α)) → ℚ × Nat × List WEvent
  | _, val_loss, correct, evs, [] => (val_loss, correct, evs)
  | i, val_loss, correct, evs, batch :: rest =>
      valLoop m loss_func log_images batch_idx (i + 1)
        (val_loss + loss_func (batchOutputs m batch) (batchLabels batch) * ((batchLabels batch).length : ℚ))
        (correct + countCorrect ((batchOutputs m batch).map argmax) (batchLabels batch))
        (if i == batch_idx && log_images then
           evs ++ [log_image_table (batch.map Sample.image)
                     ((batchOutputs m batch).map argmax) (batchLabels batch)
                     (batchOutputs m batch)]
         else evs)
        rest

/-- `validate_model(model, valid_dl, loss_func, log_images, batch_idx)`:
switch the model to eval mode, iterate every validation batch accumulating
batch loss weighted by batch size and the count of correct top-1 predictions,
and return the model state, `val_loss / len(valid_dl.dataset)`,
`correct / len(valid_dl.dataset)` and the logger events emitted.  The
`torch.inference_mode()` context disables gradients, so the iteration reads
but never writes the parameters. -/
def validate_model (model : Model α) (valid_dl : Loader α)
    (loss_func : List (List ℚ) → List Nat → ℚ)
    (log_images : Bool) (batch_idx : Nat) :
    Model α × ℚ × ℚ × List WEvent :=
  let m := model.eval
  let r := valLoop m loss_func log_images batch_idx 0 0 0 [] valid_dl.batches
  (m, r.1 / (valid_dl.dataset.length : ℚ), (r.2.1 : ℚ) / (valid_dl.dataset.length : ℚ), r.2.2)

/-- A layer constructor appearing in the `nn.Sequential` of `get_model`. -/
inductive Layer where
  | flatten : Layer
  | linear (inFeatures outFeatures : Nat) : Layer
  | batchNorm1d (features : Nat) : Layer
  | relu : Layer
  | dropout (p : ℚ) : Layer
deriving DecidableEq

/-- Per-example shape semantics of one layer: `nn.Flatten` collapses all
(non-batch) dimensions into their product, `nn.Linear i o` maps feature
vectors of size `i` to size `o` (anything else is a shape error),
`nn.BatchNorm1d f` requires and preserves `f` features, and `nn.ReLU` /
`nn.Dropout` preserve shapes. -/
def layerOut : Layer → List Nat → Option (List Nat)
  | Layer.flatten, dims => some [dims.foldl (fun a b => a * b) 1]
  | Layer.linear i o, dims => if dims = [i] then some [o] else none
  | Layer.batchNorm1d f, dims => if dims = [f] then some [f] else none
  | Layer.relu, dims => some dims
  | Layer.dropout _, dims => some dims

/-- Shape of the output of a `nn.Sequential` on a per-example input shape. -/
def runShape (layers : List Layer) (dims : List Nat) : Option (List Nat) :=
  layers.foldlM (fun d l => layerOut l d) dims

/-- `get_model(dropout)`: `nn.Sequential(Flatten, Linear(28*28, 256),
BatchNorm1d(256), ReLU, Dropout(dropout), Linear(256, 10))`. -/
def get_model (dropout : ℚ) : List Layer :=
  [Layer.flatten, Layer.linear (28 * 28) 256, Layer.batchNorm1d 256,
   Layer.relu, Layer.dropout dropout, Layer.linear 256 10]

/-- Python's `random.uniform(a, b) = a + (b - a) * u` with `u = random()`
drawn from `[0, 1)`, in exact arithmetic. -/
def pyUniform (a b u : ℚ) : ℚ := a + (b - a) * u

/-- The per-trial hyperparameter configuration (`SimpleNamespace`). -/
structure Config where
  epochs : Nat
  batch_size : Nat
  lr : ℚ
  dropout : ℚ
deriving DecidableEq

/-- The config built at trial start: `epochs=5, batch_size=128, lr=1e-3,
dropout=random.uniform(0.01, 0.80)`, with `u` the raw `random()` draw. -/
def trialConfig (u : ℚ) : Config :=
  { epochs := 5, batch_size := 128, lr := 1 / 1000
    dropout := pyUniform (1 / 100) (4 / 5) u }

/-- `train_dl = get_dataloader(is_train=True, batch_size=config.batch_size)`. -/
def trainLoader (cfg : Config) (trainFull : List (Sample α)) : Loader α :=
  get_dataloader trainFull true cfg.batch_size defaultStep

/-- `valid_dl = get_dataloader(is_train=False, batch_size=2*config.batch_size)`. -/
def validLoader (cfg : Config) (validFull : List (Sample α)) : Loader α :=
  get_dataloader validFull false (2 * cfg.batch_size) defaultStep

/-- `n_steps_per_epoch = math.ceil(len(train_dl.dataset) / config.batch_size)`
(in ℕ: `(n + bs - 1) / bs`). -/
def n_steps_per_epoch (cfg : Config) (train_dl : Loader α) : Nat :=
  (train_dl.dataset.length + cfg.batch_size - 1) / cfg.batch_size

/-- The per-step metrics dict of the training loop. -/
def stepMetrics (train_loss : ℚ) (epoch example_ct step_ct : Nat) :
    List (String × ℚ) :=
  [("train/train_loss", train_loss), ("train/epoch", (epoch : ℚ)),
   ("train/example_ct", (example_ct : ℚ)), ("train/step_ct", (step_ct : ℚ))]

/-- The mutable state of one trial of `main`: the model, the optimizer state
(abstract, `σ`), the global `example_ct` and `step_ct` counters, the value of
the Python local variable `metrics` (None before its first assignment), and
the logger event trace so far. -/
structure TrialAcc (α σ : Type) where
  model : Model α
  optState : σ
  example_ct : Nat
  step_ct : Nat
  metricsVar : Option (List (String × ℚ))
  events : List WEvent

/-- The inner `for step, (images, labels) in enumerate(train_dl)` loop of one
epoch: forward pass, loss, abstract optimizer update (`opt` stands for
`zero_grad`/`backward`/`optimizer.step`, returning the new optimizer state and
parameters), counter updates, and
`if step + 1 < n_steps_per_epoch: wandb.log(metrics)`. -/
def runSteps (loss_func : List (List ℚ) → List Nat → ℚ)
    (opt : σ → List ℚ → List (Sample α) → σ × List ℚ)
    (epoch n_steps : Nat) :
    Nat → TrialAcc α σ → List (List (Sample α)) → TrialAcc α σ
  | _, acc, [] => acc
  | step, acc, batch :: rest =>
      runSteps loss_func opt epoch n_steps (step + 1)
        { model := { acc.model with params := (opt acc.optState acc.model.params batch).2 }
          optState := (opt acc.optState acc.model.params batch).1
          example_ct := acc.example_ct + batch.length
          step_ct := acc.step_ct + 1
          metricsVar := some (stepMetrics
            (loss_func (batchOutputs acc.model batch) (batchLabels batch))
            epoch (acc.example_ct + batch.length) acc.step_ct)
          events :=
            if step + 1 < n_steps then
              acc.events ++ [WEvent.log (stepMetrics
                (loss_func (batchOutputs acc.model batch) (batchLabels batch))
                epoch (acc.example_ct + batch.length) acc.step_ct) true]
            else acc.events }
        rest

/-- The sequence of per-step metrics dicts the inner loop computes, starting
from the given model, optimizer state and counters (a replay of `runSteps`
that records every `metrics` value). -/
def stepDicts (loss_func : List (List ℚ) → List Nat → ℚ)
    (opt : σ → List ℚ → List (Sample α) → σ × List ℚ) (epoch : Nat) :
    Model α → σ → Nat → Nat → List (List (Sample α)) → List (List (String × ℚ))
  | _, _, _, _, [] => []
  | m, os, ect, sct, batch :: rest =>
      stepMetrics (loss_func (batchOutputs m batch) (batchLabels batch))
          epoch (ect + batch.length) sct ::
        stepDicts loss_func opt epoch
          { m with params := (opt os m.params batch).2 }
          (opt os m.params batch).1 (ect + batch.length) (sct + 1) rest

/-- One epoch of the training loop: `model.train()`, the step loop over the
(shuffled) training batches, end-of-epoch validation with
`log_images=(epoch == config.epochs - 1)` and the default `batch_idx=0`, and
the merged `wandb.log({**metrics, **val_metrics})`.  Referencing the Python
variable `metrics` before any step ever assigned it is a `NameError`,
modelled as `Except.error`. -/
def runEpoch (loss_func : List (List ℚ) → List Nat → ℚ)
    (opt : σ → List ℚ → List (Sample α) → σ × List ℚ)
    (valid_dl : Loader α) (perm : Nat → List (Sample α) → List (Sample α))
    (train_items : List (Sample α)) (bs n_steps epochs epoch : Nat)
    (st : TrialAcc α σ) : Except Unit (TrialAcc α σ) :=
  let a := runSteps loss_func opt epoch n_steps 0
    { st with model := st.model.train } (chunk bs (perm epoch train_items))
  let v := validate_model a.model valid_dl loss_func (epoch == epochs - 1) 0
  match a.metricsVar with
  | none => Except.error ()
  | some md =>
      Except.ok { a with
        model := v.1
        events := a.events ++ v.2.2.2 ++
          [WEvent.log (md ++ [("val/val_loss", v.2.1), ("val/val_accuracy", v.2.2.1)]) true] }

/-- The first `n` iterations of `for epoch in range(config.epochs)`. -/
def runEpochs (loss_func : List (List ℚ) → List Nat → ℚ)
    (opt : σ → List ℚ → List (Sample α) → σ × List ℚ)
    (valid_dl : Loader α) (perm : Nat → List (Sample α) → List (Sample α))
    (train_items : List (Sample α)) (bs n_steps epochs : Nat) :
    Nat → TrialAcc α σ → Except Unit (TrialAcc α σ)
  | 0, st => Except.ok st
  | n + 1, st =>
      match runEpochs loss_func opt valid_dl perm train_items bs n_steps epochs n st with
      | Except.error e => Except.error e
      | Except.ok s =>
          runEpoch loss_func opt valid_dl perm train_items bs n_steps epochs n s

/-- The trial state right after `wandb.init` and model construction:
fresh counters, unassigned `metrics` variable, and the `init` event. -/
def initAcc (fwd : Bool → List ℚ → α → List ℚ) (initParams : List ℚ)
    (os0 : σ) : TrialAcc α σ :=
  { model := { params := initParams, training := true, forward := fwd }
    optState := os0
    example_ct := 0
    step_ct := 0
    metricsVar := none
    events := [WEvent.init] }

/-- One trial of `main`: build the config from the random draw `u`, init the
logger, build the loaders and `n_steps_per_epoch`, run the epochs, then
`wandb.summary["test_accuracy"] = 0.8` and `wandb.finish()`.  The dataset
provider, model numerics, optimizer and per-epoch shuffle are the abstract
parameters. -/
def runTrial (trainFull validFull : List (Sample α)) (u : ℚ)
    (fwd : Bool → List ℚ → α → List ℚ) (initParams : List ℚ)
    (loss_func : List (List ℚ) → List Nat → ℚ)
    (opt : σ → List ℚ → List (Sample α) → σ × List ℚ) (os0 : σ)
    (perm : Nat → List (Sample α) → List (Sample α)) :
    Except Unit (TrialAcc α σ) :=
  match runEpochs loss_func opt (validLoader (trialConfig u) validFull) perm
      (trainLoader (trialConfig u) trainFull).dataset.items
      (trialConfig u).batch_size
      (n_steps_per_epoch (trialConfig u) (trainLoader (trialConfig u) trainFull))
      (trialConfig u).epochs (trialConfig u).epochs
      (initAcc fwd initParams os0) with
  | Except.error e => Except.error e
  | Except.ok r =>
      Except.ok { r with
        events := r.events ++ [WEvent.summary "test_accuracy" (4 / 5), WEvent.finish] }

/-- Is the event a `wandb.log` call carrying the validation loss? -/
def isValLog : WEvent → Bool
  | WEvent.log d _ => d.any fun p => p.1 == "val/val_loss"
  | _ => false

/-- Is the event a predictions-table submission? -/
def isTableEvent : WEvent → Bool
  | WEvent.logTable _ _ => true
  | _ => false

/-- Is the event a `wandb.summary` assignment? -/
def isSummaryEvent : WEvent → Bool
  | WEvent.summary _ _ => true
  | _ => false

/-! ### Helper lemmas about batching and subsampling -/

theorem chunkAux_flatten {α : Type} (bs : Nat) (hbs : 0 < bs) :
    ∀ (fuel : Nat) (xs : List α), xs.length ≤ fuel →
      (chunkAux bs fuel xs).flatten = xs := by
  intro fuel
  induction fuel with
  | zero =>
      intro xs hx
      have hnil : xs = [] := List.eq_nil_of_length_eq_zero (Nat.le_zero.mp hx)
      subst hnil
      simp [chunkAux]
  | succ n ih =>
      intro xs hx
      cases xs with
      | nil => simp [chunkAux]
      | cons x t =>
          have hdrop : ((x :: t).drop bs).length ≤ n := by
            simp only [List.length_drop, List.length_cons] at *
            omega
          simp only [chunkAux, List.flatten_cons, ih _ hdrop]
          exact List.take_append_drop bs (x :: t)

theorem chunkAux_length {α : Type} (bs : Nat) (hbs : 0 < bs) :
    ∀ (fuel : Nat) (xs : List α), xs.length ≤ fuel →
      (chunkAux bs fuel xs).length = (xs.length + bs - 1) / bs := by
  intro fuel
  induction fuel with
  | zero =>
      intro xs hx
      have hnil : xs = [] := List.eq_nil_of_length_eq_zero (Nat.le_zero.mp hx)
      subst hnil
      simp [chunkAux, Nat.div_eq_of_lt (show bs - 1 < bs by omega)]
  | succ n ih =>
      intro xs hx
      cases xs with
      | nil => simp [chunkAux, Nat.div_eq_of_lt (show bs - 1 < bs by omega)]
      | cons x t =>
          have hdrop : ((x :: t).drop bs).length ≤ n := by
            simp only [List.length_drop, List.length_cons] at *
            omega
          simp only [chunkAux, List.length_cons, ih _ hdrop, List.length_drop]
          have h1 : t.length + 1 + bs - 1 = t.length + bs := by omega
          rw [h1, Nat.add_div_right _ hbs]
          rcases le_or_lt (t.length + 1) bs with hle | hlt
          · have h2 : t.length + 1 - bs = 0 := by omega
            rw [h2, Nat.div_eq_of_lt (show 0 + bs - 1 < bs by omega),
              Nat.div_eq_of_lt (show t.length < bs by omega)]
          · have h2 : t.length + 1 - bs + bs - 1 = t.length := by omega
            rw [h2]

theorem chunk_flatten {α : Type} (bs : Nat) (hbs : 0 < bs) (xs : List α) :
    (chunk bs xs).flatten = xs := by
  unfold chunk
  rw [if_neg (Nat.pos_iff_ne_zero.mp hbs)]
  exact chunkAux_flatten bs hbs _ xs le_rfl

theorem chunk_length {α : Type} (bs : Nat) (hbs : 0 < bs) (xs : List α) :
    (chunk bs xs).length = (xs.length + bs - 1) / bs := by
  unfold chunk
  rw [if_neg (Nat.pos_iff_ne_zero.mp hbs)]
  exact chunkAux_length bs hbs _ xs le_rfl

theorem chunk_cons_eq {α : Type} (bs : Nat) (hbs : 0 < bs) (x : α) (t : List α) :
    chunk bs (x :: t) = ((x :: t).take bs) :: chunkAux bs t.length ((x :: t).drop bs) := by
  unfold chunk
  rw [if_neg (Nat.pos_iff_ne_zero.mp hbs)]
  simp [chunkAux]

theorem chunk_ne_nil {α : Type} (bs : Nat) (hbs : 0 < bs) (x : α) (t : List α) :
    chunk bs (x :: t) ≠ [] := by
  rw [chunk_cons_eq bs hbs]
  exact List.cons_ne_nil _ _

theorem chunk_head {α : Type} (bs : Nat) (hbs : 0 < bs) (x : α) (t : List α) :
    (chunk bs (x :: t)).head? = some ((x :: t).take bs) := by
  rw [chunk_cons_eq bs hbs]
  rfl

theorem stride_indices_length (n k : Nat) :
    (stride_indices n k).length = (n + k - 1) / k := by
  simp [stride_indices]

theorem stride_indices_lt (n k : Nat) (hk : 0 < k) :
    ∀ j ∈ stride_indices n k, j < n := by
  intro j hj
  simp only [stride_indices, List.mem_map, List.mem_range] at hj
  obtain ⟨i, hi, rfl⟩ := hj
  by_cases hn : n = 0
  · subst hn
    rw [Nat.div_eq_of_lt (show 0 + k - 1 < k by omega)] at hi
    omega
  · have h2 : (i + 1) * k ≤ ((n + k - 1) / k) * k :=
      Nat.mul_le_mul_right k hi
    have h3 : ((n + k - 1) / k) * k ≤ n + k - 1 := Nat.div_mul_le_self _ _
    have h4 : i * k + k ≤ n + k - 1 := by
      calc i * k + k = (i + 1) * k := by ring
        _ ≤ ((n + k - 1) / k) * k := h2
        _ ≤ n + k - 1 := h3
    omega

theorem filterMap_index_length {α : Type} (base : List α) :
    ∀ idx : List Nat, (∀ j ∈ idx, j < base.length) →
      (idx.filterMap fun j => base[j]?).length = idx.length := by
  intro idx
  induction idx with
  | nil => simp
  | cons j t ih =>
      intro h
      have hj : j < base.length := h j (by simp)
      have hsome : base[j]? = some base[j] := List.getElem?_eq_getElem hj
      simp [List.filterMap_cons, hsome, ih fun a ha => h a (by simp [ha])]

theorem get_dataloader_dataset_length {α : Type} (full : List (Sample α))
    (it : Bool) (bsz k : Nat) :
    (get_dataloader full it bsz k).dataset.length = (full.length + k - 1) / k := by
  simp [get_dataloader, Subset.length, stride_indices_length]

theorem get_dataloader_items_length {α : Type} (full : List (Sample α))
    (it : Bool) (bsz k : Nat) (hk : 0 < k) :
    (get_dataloader full it bsz k).dataset.items.length =
      (get_dataloader full it bsz k).dataset.length := by
  simp only [get_dataloader, Subset.items, Subset.length]
  exact filterMap_index_length full _ (stride_indices_lt full.length k hk)

theorem get_dataloader_items_ne_nil {α : Type} (full : List (Sample α))
    (it : Bool) (bsz k : Nat) (hk : 0 < k) (hf : full ≠ []) :
    (get_dataloader full it bsz k).dataset.items ≠ [] := by
  have hlen : (get_dataloader full it bsz k).dataset.items.length =
      (full.length + k - 1) / k := by
    rw [get_dataloader_items_length full it bsz k hk,
      get_dataloader_dataset_length]
  have hpos : 0 < full.length := List.length_pos.mpr hf
  have hone : 1 ≤ (full.length + k - 1) / k :=
    (Nat.one_le_div_iff hk).mpr (by omega)
  intro hcon
  rw [hcon] at hlen
  simp at hlen
  omega

/-! ### Helper lemmas about the validation loop -/

theorem valLoop_loss {α : Type} (m : Model α)
    (loss_func : List (List ℚ) → List Nat → ℚ) (li : Bool) (bi : Nat) :
    ∀ (bs : List (List (Sample α))) (i : Nat) (vl : ℚ) (c : Nat) (evs : List WEvent),
      (valLoop m loss_func li bi i vl c evs bs).1 =
        vl + (bs.map fun b =>
          loss_func (batchOutputs m b) (batchLabels b) * (b.length : ℚ)).sum := by
  intro bs
  induction bs with
  | nil => intro i vl c evs; simp [valLoop]
  | cons b t ih =>
      intro i vl c evs
      simp only [valLoop, ih, List.map_cons, List.sum_cons]
      have hlen : ((batchLabels b).length : ℚ) = (b.length : ℚ) := by
        simp [batchLabels]
      rw [hlen]; ring

theorem valLoop_correct {α : Type} (m : Model α)
    (loss_func : List (List ℚ) → List Nat → ℚ) (li : Bool) (bi : Nat) :
    ∀ (bs : List (List (Sample α))) (i : Nat) (vl : ℚ) (c : Nat) (evs : List WEvent),
      (valLoop m loss_func li bi i vl c evs bs).2.1 =
        c + (bs.map fun b =>
          countCorrect ((batchOutputs m b).map argmax) (batchLabels b)).sum := by
  intro bs
  induction bs with
  | nil => intro i vl c evs; simp [valLoop]
  | cons b t ih =>
      intro i vl c evs
      simp only [valLoop, ih, List.map_cons, List.sum_cons]
      omega

theorem valLoop_events_of_not_log {α : Type} (m : Model α)
    (loss_func : List (List ℚ) → List Nat → ℚ) (bi : Nat) :
    ∀ (bs : List (List (Sample α))) (i : Nat) (vl : ℚ) (c : Nat) (evs : List WEvent),
      (valLoop m loss_func false bi i vl c evs bs).2.2 = evs := by
  intro bs
  induction bs with
  | nil => intro i vl c evs; simp [valLoop]
  | cons b t ih =>
      intro i vl c evs
      simp only [valLoop, Bool.and_false]
      rw [if_neg Bool.false_ne_true]
      exact ih _ _ _ _

theorem valLoop_events_of_past {α : Type} (m : Model α)
    (loss_func : List (List ℚ) → List Nat → ℚ) (li : Bool) (bi : Nat) :
    ∀ (bs : List (List (Sample α))) (i : Nat), bi < i →
      ∀ (vl : ℚ) (c : Nat) (evs : List WEvent),
      (valLoop m loss_func li bi i vl c evs bs).2.2 = evs := by
  intro bs
  induction bs with
  | nil => intro i hi vl c evs; simp [valLoop]
  | cons b t ih =>
      intro i hi vl c evs
      have hne : (i == bi) = false := by
        simp only [beq_eq_false_iff_ne]; omega
      simp only [valLoop, hne, Bool.false_and]
      rw [if_neg Bool.false_ne_true]
      exact ih (i + 1) (by omega) _ _ _

theorem valLoop_events_first {α : Type} (m : Model α)
    (loss_func : List (List ℚ) → List Nat → ℚ)
    (b : List (Sample α)) (t : List (List (Sample α)))
    (vl : ℚ) (c : Nat) (evs : List WEvent) :
    (valLoop m loss_func true 0 0 vl c evs (b :: t)).2.2 =
      evs ++ [WEvent.logTable b.length false] := by
  simp only [valLoop]
  rw [valLoop_events_of_past m loss_func true 0 t 1 (by omega)]
  simp [log_image_table]

/-! ### Claim theorems: validator -/

/-- C1: for every validation loader and loss function, the first scalar
returned by `validate_model` is the sum over batches of (batch loss × batch
size) divided by the size of the validation dataset (`len(valid_dl.dataset)`),
not by the number of batches. -/
theorem validate_model_mean_loss {α : Type} (model : Model α)
    (valid_dl : Loader α) (loss_func : List (List ℚ) → List Nat → ℚ)
    (log_images : Bool) (batch_idx : Nat) :
    (validate_model model valid_dl loss_func log_images batch_idx).2.1 =
      (valid_dl.batches.map fun b =>
        loss_func (batchOutputs model.eval b) (batchLabels b) * (b.length : ℚ)).sum /
        ((valid_dl.dataset.length : ℚ)) := by
  simp only [validate_model]
  rw [valLoop_loss]
  simp

/-- C7: `validate_model` runs the model in inference mode (gradient-free) and
never mutates the model parameters: the model state it returns carries exactly
the parameters and forward function of the input model, with only the
train/eval mode flag switched to eval. -/
theorem validate_model_preserves_params {α : Type} (model : Model α)
    (valid_dl : Loader α) (loss_func : List (List ℚ) → List Nat → ℚ)
    (log_images : Bool) (batch_idx : Nat) :
    (validate_model model valid_dl loss_func log_images batch_idx).1.params = model.params ∧
    (validate_model model valid_dl loss_func log_images batch_idx).1.forward = model.forward ∧
    (validate_model model valid_dl loss_func log_images batch_idx).1.training = false := by
  simp [validate_model, Model.eval]

theorem countCorrect_map {α : Type} (f : α → Nat) (g : α → Nat) :
    ∀ l : List α, countCorrect (l.map f) (l.map g) = l.countP fun x => f x == g x := by
  intro l
  induction l with
  | nil => rfl
  | cons x t ih =>
      simp only [countCorrect, List.map_cons, List.zip_cons_cons, List.countP_cons] at ih ⊢
      rw [ih]

theorem sum_countP_flatten {α : Type} (p : α → Bool) :
    ∀ bss : List (List α), (bss.map fun b => b.countP p).sum = bss.flatten.countP p := by
  intro bss
  induction bss with
  | nil => simp
  | cons b t ih =>
      simp only [List.map_cons, List.sum_cons, List.flatten_cons, List.countP_append, ih]

/-- C3: on the loader the program builds over any non-empty validation set,
the accuracy returned by `validate_model` lies in `[0, 1]` and equals the
number of validation examples whose arg-max logit equals their label, divided
by the size of the validation dataset. -/
theorem validate_model_accuracy {α : Type} (model : Model α)
    (validFull : List (Sample α)) (bsz k : Nat)
    (loss_func : List (List ℚ) → List Nat → ℚ) (log_images : Bool) (batch_idx : Nat)
    (hbsz : 0 < bsz) (hk : 0 < k) (hne : validFull ≠ []) :
    0 ≤ (validate_model model (get_dataloader validFull false bsz k) loss_func log_images batch_idx).2.2.1 ∧
    (validate_model model (get_dataloader validFull false bsz k) loss_func log_images batch_idx).2.2.1 ≤ 1 ∧
    (validate_model model (get_dataloader validFull false bsz k) loss_func log_images batch_idx).2.2.1 =
      (((get_dataloader validFull false bsz k).dataset.items.countP fun s =>
          argmax (model.forward false model.params s.image) == s.label : Nat) : ℚ) /
        (((get_dataloader validFull false bsz k).dataset.length : Nat) : ℚ) := by
  have hcorr :
      (validate_model model (get_dataloader validFull false bsz k) loss_func log_images batch_idx).2.2.1 =
        (((get_dataloader validFull false bsz k).dataset.items.countP fun s =>
            argmax (model.forward false model.params s.image) == s.label : Nat) : ℚ) /
          (((get_dataloader validFull false bsz k).dataset.length : Nat) : ℚ) := by
    simp only [validate_model]
    rw [valLoop_correct]
    have hout : ∀ b : List (Sample α),
        countCorrect ((batchOutputs (Model.eval model) b).map argmax) (batchLabels b) =
          b.countP fun s => argmax (model.forward false model.params s.image) == s.label := by
      intro b
      have : (batchOutputs (Model.eval model) b).map argmax =
          b.map fun s => argmax (model.forward false model.params s.image) := by
        simp [batchOutputs, Model.eval]
      rw [this, batchLabels, countCorrect_map]
    simp only [hout, Loader.batches]
    rw [sum_countP_flatten]
    have hb : (get_dataloader validFull false bsz k).batch_size = bsz := rfl
    rw [hb, chunk_flatten bsz hbsz]
    simp
  refine ⟨?_, ?_, hcorr⟩
  · rw [hcorr]
    exact div_nonneg (Nat.cast_nonneg _) (Nat.cast_nonneg _)
  · rw [hcorr]
    have hlen : (get_dataloader validFull false bsz k).dataset.items.length =
        (get_dataloader validFull false bsz k).dataset.length :=
      get_dataloader_items_length validFull false bsz k hk
    have hpos : 0 < (get_dataloader validFull false bsz k).dataset.length := by
      rw [get_dataloader_dataset_length]
      have : 0 < validFull.length := List.length_pos.mpr hne
      exact (Nat.one_le_div_iff hk).mpr (by omega)
    have hle : ((get_dataloader validFull false bsz k).dataset.items.countP fun s =>
        argmax (model.forward false model.params s.image) == s.label) ≤
        (get_dataloader validFull false bsz k).dataset.length := by
      rw [← hlen]
      exact List.countP_le_length _
    rw [div_le_one (by exact_mod_cast hpos)]
    exact_mod_cast hle

/-- C4: the subsampled dataset built by `get_dataloader` has exactly
`⌈N / k⌉ = (N + k - 1) / k` examples for a full dataset of size `N` and stride
`k > 0`; its `i`-th example is the full dataset's example at index `i * k`
(so the subset keeps indices `0, k, 2k, ...`); and the default stride is 5. -/
theorem get_dataloader_subsample_spec {α : Type} (full : List (Sample α))
    (is_train : Bool) (batch_size k : Nat) (hk : 0 < k) :
    (get_dataloader full is_train batch_size k).dataset.length = (full.length + k - 1) / k ∧
    (∀ i, i < (full.length + k - 1) / k →
      (get_dataloader full is_train batch_size k).dataset.getItem i = full[i * k]?) ∧
    defaultStep = 5 := by
  refine ⟨get_dataloader_dataset_length full is_train batch_size k, ?_, rfl⟩
  intro i hi
  simp only [get_dataloader, Subset.getItem, stride_indices]
  rw [List.getElem?_map, List.getElem?_range hi]
  rfl

/-- C5: for every dropout probability `p ∈ [0, 1)`, `get_model p` maps a
28×28 per-example input shape to exactly 10 output logits, and its layer
sequence is exactly Flatten, a hidden affine layer of width 256, batch
normalization, ReLU, dropout at rate `p`, and the output affine layer. -/
theorem get_model_shape (p : ℚ) (h0 : 0 ≤ p) (h1 : p < 1) :
    runShape (get_model p) [28, 28] = some [10] ∧
    get_model p = [Layer.flatten, Layer.linear 784 256, Layer.batchNorm1d 256,
      Layer.relu, Layer.dropout p, Layer.linear 256 10] := by
  exact ⟨rfl, rfl⟩

/-- C6: the dropout probability sampled at trial start,
`random.uniform(0.01, 0.80)` on a raw draw `u ∈ [0, 1)`, always lies in the
half-open interval `[0.01, 0.80)` (in exact arithmetic). -/
theorem trial_dropout_in_range (u : ℚ) (h0 : 0 ≤ u) (h1 : u < 1) :
    1 / 100 ≤ (trialConfig u).dropout ∧ (trialConfig u).dropout < 4 / 5 := by
  simp only [trialConfig, pyUniform]
  constructor
  · nlinarith
  · nlinarith

/-- C10: in every trial the validation loader is built with batch size
`2 * config.batch_size` (256 for the configured 128), while
`n_steps_per_epoch` is `⌈len(train_dl.dataset) / config.batch_size⌉` with the
training batch size 128 as denominator. -/
theorem valid_batch_and_steps {α : Type} (u : ℚ)
    (trainFull validFull : List (Sample α)) :
    (validLoader (trialConfig u) validFull).batch_size = 2 * (trialConfig u).batch_size ∧
    (validLoader (trialConfig u) validFull).batch_size = 256 ∧
    n_steps_per_epoch (trialConfig u) (trainLoader (trialConfig u) trainFull) =
      ((trainLoader (trialConfig u) trainFull).dataset.length + 128 - 1) / 128 := by
  exact ⟨rfl, rfl, rfl⟩

/-! ### Helper lemmas about the training loop trace -/

theorem stepDicts_length {α σ : Type} (lf : List (List ℚ) → List Nat → ℚ)
    (opt : σ → List ℚ → List (Sample α) → σ × List ℚ) (epoch : Nat) :
    ∀ (bs : List (List (Sample α))) (m : Model α) (os : σ) (ect sct : Nat),
      (stepDicts lf opt epoch m os ect sct bs).length = bs.length := by
  intro bs
  induction bs with
  | nil => intro m os ect sct; rfl
  | cons b rest ih =>
      intro m os ect sct
      simp only [stepDicts, List.length_cons, ih]

theorem stepDicts_keys {α σ : Type} (lf : List (List ℚ) → List Nat → ℚ)
    (opt : σ → List ℚ → List (Sample α) → σ × List ℚ) (epoch : Nat) :
    ∀ (bs : List (List (Sample α))) (m : Model α) (os : σ) (ect sct : Nat)
      (d : List (String × ℚ)), d ∈ stepDicts lf opt epoch m os ect sct bs →
      d.map Prod.fst = ["train/train_loss", "train/epoch", "train/example_ct", "train/step_ct"] := by
  intro bs
  induction bs with
  | nil => intro m os ect sct d h; simp [stepDicts] at h
  | cons b rest ih =>
      intro m os ect sct d h
      simp only [stepDicts, List.mem_cons] at h
      rcases h with h | h
      · subst h; rfl
      · exact ih _ _ _ _ d h

theorem runSteps_events {α σ : Type} (lf : List (List ℚ) → List Nat → ℚ)
    (opt : σ → List ℚ → List (Sample α) → σ × List ℚ) (epoch n_steps : Nat) :
    ∀ (bs : List (List (Sample α))) (i : Nat) (acc : TrialAcc α σ),
      i + bs.length = n_steps →
      (runSteps lf opt epoch n_steps i acc bs).events =
        acc.events ++
          ((stepDicts lf opt epoch acc.model acc.optState acc.example_ct acc.step_ct bs).dropLast.map
            fun d => WEvent.log d true) := by
  intro bs
  induction bs with
  | nil => intro i acc h; simp [runSteps, stepDicts]
  | cons b rest ih =>
      intro i acc h
      simp only [List.length_cons] at h
      by_cases hrest : rest = []
      · subst hrest
        have hns : ¬ (i + 1 < n_steps) := by
          simp only [List.length_nil] at h
          omega
        simp only [runSteps, stepDicts, List.dropLast_single, List.map_nil,
          List.append_nil, if_neg hns]
      · have hpos : 0 < rest.length := List.length_pos.mpr hrest
        have hlt : i + 1 < n_steps := by omega
        simp only [runSteps]
        rw [ih (i + 1) _ (by omega)]
        have htne : stepDicts lf opt epoch
            { acc.model with params := (opt acc.optState acc.model.params b).2 }
            (opt acc.optState acc.model.params b).1
            (acc.example_ct + b.length) (acc.step_ct + 1) rest ≠ [] := by
          intro hcon
          have hl := stepDicts_length lf opt epoch rest
            { acc.model with params := (opt acc.optState acc.model.params b).2 }
            (opt acc.optState acc.model.params b).1
            (acc.example_ct + b.length) (acc.step_ct + 1)
          rw [hcon] at hl
          exact hrest (List.eq_nil_of_length_eq_zero hl.symm)
        simp only [if_pos hlt, stepDicts]
        rw [List.dropLast_cons_of_ne_nil htne]
        simp [List.append_assoc]

theorem runSteps_metricsVar {α σ : Type} (lf : List (List ℚ) → List Nat → ℚ)
    (opt : σ → List ℚ → List (Sample α) → σ × List ℚ) (epoch n_steps : Nat) :
    ∀ (bs : List (List (Sample α))) (i : Nat) (acc : TrialAcc α σ), bs ≠ [] →
      (runSteps lf opt epoch n_steps i acc bs).metricsVar =
        (stepDicts lf opt epoch acc.model acc.optState acc.example_ct acc.step_ct bs).getLast? := by
  intro bs
  induction bs with
  | nil => intro i acc h; exact absurd rfl h
  | cons b rest ih =>
      intro i acc h
      by_cases hrest : rest = []
      · subst hrest
        simp [runSteps, stepDicts]
      · simp only [runSteps, stepDicts]
        rw [ih (i + 1) _ hrest]
        have htne : stepDicts lf opt epoch
            { acc.model with params := (opt acc.optState acc.model.params b).2 }
            (opt acc.optState acc.model.params b).1
            (acc.example_ct + b.length) (acc.step_ct + 1) rest ≠ [] := by
          intro hcon
          have hl := stepDicts_length lf opt epoch rest
            { acc.model with params := (opt acc.optState acc.model.params b).2 }
            (opt acc.optState acc.model.params b).1
            (acc.example_ct + b.length) (acc.step_ct + 1)
          rw [hcon] at hl
          exact hrest (List.eq_nil_of_length_eq_zero hl.symm)
        cases htl : stepDicts lf opt epoch
            { acc.model with params := (opt acc.optState acc.model.params b).2 }
            (opt acc.optState acc.model.params b).1
            (acc.example_ct + b.length) (acc.step_ct + 1) rest with
        | nil => exact absurd htl htne
        | cons d2 t2 => rw [List.getLast?_cons_cons]

/-- The predictions-table events emitted by one `validate_model` call with the
default `batch_idx=0`: nothing unless `log_images`, else one uncommitted table
for the first batch. -/
theorem validate_model_events_spec {α : Type} (m : Model α)
    (lf : List (List ℚ) → List Nat → ℚ) (li : Bool) (dl : Loader α) :
    (validate_model m dl lf li 0).2.2.2 =
      if li then
        (match dl.batches with
          | [] => []
          | b :: _ => [WEvent.logTable b.length false])
      else [] := by
  cases li with
  | false => simp [validate_model, valLoop_events_of_not_log]
  | true =>
      cases hB : dl.batches with
      | nil => simp [validate_model, hB, valLoop]
      | cons b t => simp [validate_model, hB, valLoop_events_first]

theorem isValLog_of_train_keys (d : List (String × ℚ))
    (h : d.map Prod.fst = ["train/train_loss", "train/epoch", "train/example_ct", "train/step_ct"]) :
    isValLog (WEvent.log d true) = false := by
  simp only [isValLog]
  have hmap : ∀ l : List (String × ℚ), (l.any fun p => p.1 == "val/val_loss") =
      ((l.map Prod.fst).any fun s => s == "val/val_loss") := by
    intro l
    induction l with
    | nil => rfl
    | cons a t ih => simp only [List.any_cons, List.map_cons, ih]
  rw [hmap d, h]
  rfl

/-- Detailed description of one successful epoch: the events it appends are
the per-step logs for all steps but the last, then the validation events,
then the merged log of the last step's metrics with the validation metrics. -/
theorem runEpoch_ok_detail {α σ : Type} (lf : List (List ℚ) → List Nat → ℚ)
    (opt : σ → List ℚ → List (Sample α) → σ × List ℚ) (valid_dl : Loader α)
    (perm : Nat → List (Sample α) → List (Sample α))
    (train_items : List (Sample α)) (bs n_steps epochs epoch : Nat)
    (st : TrialAcc α σ)
    (hne : chunk bs (perm epoch train_items) ≠ [])
    (hns : n_steps = (chunk bs (perm epoch train_items)).length) :
    ∃ st' dlast,
      (stepDicts lf opt epoch st.model.train st.optState st.example_ct st.step_ct
          (chunk bs (perm epoch train_items))).getLast? = some dlast ∧
      runEpoch lf opt valid_dl perm train_items bs n_steps epochs epoch st = Except.ok st' ∧
      st'.events =
        st.events ++
          ((stepDicts lf opt epoch st.model.train st.optState st.example_ct st.step_ct
              (chunk bs (perm epoch train_items))).dropLast.map fun d => WEvent.log d true) ++
          (validate_model (runSteps lf opt epoch n_steps 0 { st with model := st.model.train }
              (chunk bs (perm epoch train_items))).model valid_dl lf (epoch == epochs - 1) 0).2.2.2 ++
          [WEvent.log (dlast ++
            [("val/val_loss", (validate_model (runSteps lf opt epoch n_steps 0
                { st with model := st.model.train } (chunk bs (perm epoch train_items))).model
                valid_dl lf (epoch == epochs - 1) 0).2.1),
             ("val/val_accuracy", (validate_model (runSteps lf opt epoch n_steps 0
                { st with model := st.model.train } (chunk bs (perm epoch train_items))).model
                valid_dl lf (epoch == epochs - 1) 0).2.2.1)]) true] := by
  have hDne : stepDicts lf opt epoch st.model.train st.optState st.example_ct st.step_ct
      (chunk bs (perm epoch train_items)) ≠ [] := by
    intro hcon
    apply hne
    have hl := stepDicts_length lf opt epoch (chunk bs (perm epoch train_items))
      st.model.train st.optState st.example_ct st.step_ct
    rw [hcon] at hl
    exact List.eq_nil_of_length_eq_zero hl.symm
  obtain ⟨dlast, hdlast⟩ := Option.isSome_iff_exists.mp (List.getLast?_isSome.mpr hDne)
  have hmv : (runSteps lf opt epoch n_steps 0 { st with model := st.model.train }
      (chunk bs (perm epoch train_items))).metricsVar = some dlast := by
    rw [runSteps_metricsVar lf opt epoch n_steps _ 0 _ hne]
    exact hdlast
  have hev : (runSteps lf opt epoch n_steps 0 { st with model := st.model.train }
      (chunk bs (perm epoch train_items))).events =
      st.events ++
        ((stepDicts lf opt epoch st.model.train st.optState st.example_ct st.step_ct
            (chunk bs (perm epoch train_items))).dropLast.map fun d => WEvent.log d true) := by
    rw [runSteps_events lf opt epoch n_steps _ 0 _ (by omega)]
  cases hrun : runEpoch lf opt valid_dl perm train_items bs n_steps epochs epoch st with
  | error e =>
      exfalso
      simp only [runEpoch, hmv] at hrun
      exact Except.noConfusion hrun
  | ok st2 =>
      refine ⟨st2, dlast, hdlast, rfl, ?_⟩
      simp only [runEpoch, hmv, Except.ok.injEq] at hrun
      rw [← hrun]
      simp only [hev, List.append_assoc]

theorem isValLog_merged_log (d : List (String × ℚ)) (x y : ℚ) :
    isValLog (WEvent.log (d ++ [("val/val_loss", x), ("val/val_accuracy", y)]) true) = true := by
  simp [isValLog, List.any_append]

/-- Event-count summary of one successful epoch: it appends exactly one
validation-metrics log, no summary events, and a predictions table exactly
when it is the final epoch (for the first validation batch, uncommitted). -/
theorem runEpoch_new_events {α σ : Type} (lf : List (List ℚ) → List Nat → ℚ)
    (opt : σ → List ℚ → List (Sample α) → σ × List ℚ) (valid_dl : Loader α)
    (perm : Nat → List (Sample α) → List (Sample α))
    (train_items : List (Sample α)) (bs n_steps epochs epoch : Nat)
    (st : TrialAcc α σ)
    (hne : chunk bs (perm epoch train_items) ≠ [])
    (hns : n_steps = (chunk bs (perm epoch train_items)).length) :
    ∃ st' new,
      runEpoch lf opt valid_dl perm train_items bs n_steps epochs epoch st = Except.ok st' ∧
      st'.events = st.events ++ new ∧
      new.countP isValLog = 1 ∧
      new.countP isSummaryEvent = 0 ∧
      ((epoch == epochs - 1) = false → new.filter isTableEvent = []) ∧
      (∀ b0, (epoch == epochs - 1) = true → valid_dl.batches.head? = some b0 →
        new.filter isTableEvent = [WEvent.logTable b0.length false]) := by
  obtain ⟨st', dlast, hdlast, hrun, hev⟩ :=
    runEpoch_ok_detail lf opt valid_dl perm train_items bs n_steps epochs epoch st hne hns
  rw [List.append_assoc, List.append_assoc] at hev
  refine ⟨st', _, hrun, hev, ?_, ?_, ?_, ?_⟩
  all_goals
    rw [validate_model_events_spec]
  · -- exactly one validation log
    simp only [List.countP_append]
    have hA : ((stepDicts lf opt epoch st.model.train st.optState st.example_ct st.step_ct
        (chunk bs (perm epoch train_items))).dropLast.map
          fun d => WEvent.log d true).countP isValLog = 0 := by
      rw [List.countP_eq_zero]
      intro e he
      obtain ⟨d, hd, rfl⟩ := List.mem_map.mp he
      have hkeys := stepDicts_keys lf opt epoch _ st.model.train st.optState
        st.example_ct st.step_ct d (List.dropLast_subset _ hd)
      simp [isValLog_of_train_keys d hkeys]
    rw [hA]
    cases (epoch == epochs - 1) with
    | false => simp [isValLog_merged_log]
    | true =>
        cases valid_dl.batches with
        | nil => simp [isValLog_merged_log]
        | cons c t => simp [isValLog_merged_log, isValLog]
  · -- no summary events
    simp only [List.countP_append]
    have hA : ((stepDicts lf opt epoch st.model.train st.optState st.example_ct st.step_ct
        (chunk bs (perm epoch train_items))).dropLast.map
          fun d => WEvent.log d true).countP isSummaryEvent = 0 := by
      rw [List.countP_eq_zero]
      intro e he
      obtain ⟨d, hd, rfl⟩ := List.mem_map.mp he
      simp [isSummaryEvent]
    rw [hA]
    cases (epoch == epochs - 1) with
    | false => simp [isSummaryEvent]
    | true =>
        cases valid_dl.batches with
        | nil => simp [isSummaryEvent]
        | cons c t => simp [isSummaryEvent]
  · -- not the final epoch: no table
    intro hfalse
    rw [hfalse]
    simp only [List.filter_append]
    have hA : ((stepDicts lf opt epoch st.model.train st.optState st.example_ct st.step_ct
        (chunk bs (perm epoch train_items))).dropLast.map
          fun d => WEvent.log d true).filter isTableEvent = [] := by
      rw [List.filter_eq_nil_iff]
      intro e he
      obtain ⟨d, hd, rfl⟩ := List.mem_map.mp he
      simp [isTableEvent]
    rw [hA]
    simp [isTableEvent]
  · -- final epoch: exactly the first batch's table
    intro b0 htrue hb0
    rw [htrue]
    simp only [List.filter_append]
    have hA : ((stepDicts lf opt epoch st.model.train st.optState st.example_ct st.step_ct
        (chunk bs (perm epoch train_items))).dropLast.map
          fun d => WEvent.log d true).filter isTableEvent = [] := by
      rw [List.filter_eq_nil_iff]
      intro e he
      obtain ⟨d, hd, rfl⟩ := List.mem_map.mp he
      simp [isTableEvent]
    rw [hA]
    cases hbs : valid_dl.batches with
    | nil => rw [hbs] at hb0; exact Option.noConfusion hb0
    | cons c t =>
        rw [hbs] at hb0
        have hc : c = b0 := by
          simp only [List.head?_cons, Option.some.injEq] at hb0
          exact hb0
        subst hc
        simp [isTableEvent]

/-- Event-count summary of the first `n` epochs of a trial: `n` validation
logs, no summary events, and the single predictions table appears exactly
when all `epochs` epochs (the last included) have run. -/
theorem runEpochs_spec {α σ : Type} (lf : List (List ℚ) → List Nat → ℚ)
    (opt : σ → List ℚ → List (Sample α) → σ × List ℚ) (valid_dl : Loader α)
    (perm : Nat → List (Sample α) → List (Sample α))
    (train_items : List (Sample α)) (bs n_steps epochs : Nat) (hep : 0 < epochs)
    (hB : ∀ e, chunk bs (perm e train_items) ≠ [] ∧
      n_steps = (chunk bs (perm e train_items)).length)
    (b0 : List (Sample α)) (hb0 : valid_dl.batches.head? = some b0)
    (st0 : TrialAcc α σ) :
    ∀ n, n ≤ epochs →
      ∃ stn new,
        runEpochs lf opt valid_dl perm train_items bs n_steps epochs n st0 = Except.ok stn ∧
        stn.events = st0.events ++ new ∧
        new.countP isValLog = n ∧
        new.countP isSummaryEvent = 0 ∧
        new.filter isTableEvent =
          (if n = epochs then [WEvent.logTable b0.length false] else []) := by
  intro n
  induction n with
  | zero =>
      intro hn
      exact ⟨st0, [], rfl, by simp, rfl, rfl, by rw [if_neg (by omega)]; rfl⟩
  | succ n ih =>
      intro hn
      obtain ⟨stn, new, hrun, hevents, hval, hsum, htab⟩ := ih (by omega)
      obtain ⟨st', new', hrun', hev', hval', hsum', htabF, htabT⟩ :=
        runEpoch_new_events lf opt valid_dl perm train_items bs n_steps epochs n stn
          (hB n).1 (hB n).2
      refine ⟨st', new ++ new', ?_, ?_, ?_, ?_, ?_⟩
      · simp only [runEpochs, hrun]
        exact hrun'
      · rw [hev', hevents, List.append_assoc]
      · simp [List.countP_append, hval, hval']
      · simp [List.countP_append, hsum, hsum']
      · rw [List.filter_append, htab]
        by_cases hcase : n + 1 = epochs
        · rw [if_neg (by omega), if_pos hcase]
          rw [htabT b0 (beq_iff_eq.mpr (by omega)) hb0]
          simp
        · rw [if_neg (by omega), if_neg hcase]
          rw [htabF (beq_eq_false_iff_ne.mpr (by omega))]
          simp

/-- In a trial built by `main`, every epoch's batch sequence is non-empty and
has exactly `n_steps_per_epoch` batches (the per-epoch shuffle permutes the
subsampled training set, so it preserves its size). -/
theorem trial_hypotheses {α : Type} (u : ℚ) (trainFull : List (Sample α))
    (perm : Nat → List (Sample α) → List (Sample α))
    (hperm : ∀ e l, (perm e l).length = l.length) (htrain : trainFull ≠ []) :
    ∀ e, chunk (trialConfig u).batch_size
        (perm e (trainLoader (trialConfig u) trainFull).dataset.items) ≠ [] ∧
      n_steps_per_epoch (trialConfig u) (trainLoader (trialConfig u) trainFull) =
        (chunk (trialConfig u).batch_size
          (perm e (trainLoader (trialConfig u) trainFull).dataset.items)).length := by
  intro e
  have hbs : (0:Nat) < (trialConfig u).batch_size := by
    show (0:Nat) < 128
    decide
  have hk : (0:Nat) < defaultStep := by decide
  have hitems_ne : (trainLoader (trialConfig u) trainFull).dataset.items ≠ [] :=
    get_dataloader_items_ne_nil trainFull true (trialConfig u).batch_size defaultStep hk htrain
  have hlen : (perm e (trainLoader (trialConfig u) trainFull).dataset.items).length =
      (trainLoader (trialConfig u) trainFull).dataset.items.length :=
    hperm e _
  have hperm_ne : perm e (trainLoader (trialConfig u) trainFull).dataset.items ≠ [] := by
    intro hcon
    rw [hcon] at hlen
    exact hitems_ne (List.eq_nil_of_length_eq_zero hlen.symm)
  constructor
  · cases hp : perm e (trainLoader (trialConfig u) trainFull).dataset.items with
    | nil => exact absurd hp hperm_ne
    | cons x t => exact chunk_ne_nil _ hbs x t
  · have hil : (trainLoader (trialConfig u) trainFull).dataset.items.length =
        (trainLoader (trialConfig u) trainFull).dataset.length :=
      get_dataloader_items_length trainFull true (trialConfig u).batch_size defaultStep hk
    rw [chunk_length _ hbs, hlen, hil]
    rfl

/-- C2: in every epoch whose (shuffled) batch sequence is non-empty and has
exactly `n_steps_per_epoch` batches — which `trial_hypotheses` shows holds in
every trial over a non-empty training set — the loop logs a per-step metrics
record with keys `train/train_loss`, `train/epoch`, `train/example_ct`,
`train/step_ct` for every step except the last, and the last step's record is
emitted exactly once, merged into the same `wandb.log` call as the epoch's
`val/val_loss` and `val/val_accuracy` metrics. -/
theorem runEpoch_step_logging {α σ : Type} (lf : List (List ℚ) → List Nat → ℚ)
    (opt : σ → List ℚ → List (Sample α) → σ × List ℚ) (valid_dl : Loader α)
    (perm : Nat → List (Sample α) → List (Sample α))
    (train_items : List (Sample α)) (bs n_steps epochs epoch : Nat)
    (st : TrialAcc α σ)
    (hne : chunk bs (perm epoch train_items) ≠ [])
    (hns : n_steps = (chunk bs (perm epoch train_items)).length) :
    ∃ st' dlast,
      (stepDicts lf opt epoch st.model.train st.optState st.example_ct st.step_ct
          (chunk bs (perm epoch train_items))).getLast? = some dlast ∧
      runEpoch lf opt valid_dl perm train_items bs n_steps epochs epoch st = Except.ok st' ∧
      (∀ d ∈ stepDicts lf opt epoch st.model.train st.optState st.example_ct st.step_ct
          (chunk bs (perm epoch train_items)),
        d.map Prod.fst = ["train/train_loss", "train/epoch", "train/example_ct", "train/step_ct"]) ∧
      st'.events =
        st.events ++
          ((stepDicts lf opt epoch st.model.train st.optState st.example_ct st.step_ct
              (chunk bs (perm epoch train_items))).dropLast.map fun d => WEvent.log d true) ++
          (validate_model (runSteps lf opt epoch n_steps 0 { st with model := st.model.train }
              (chunk bs (perm epoch train_items))).model valid_dl lf (epoch == epochs - 1) 0).2.2.2 ++
          [WEvent.log (dlast ++
            [("val/val_loss", (validate_model (runSteps lf opt epoch n_steps 0
                { st with model := st.model.train } (chunk bs (perm epoch train_items))).model
                valid_dl lf (epoch == epochs - 1) 0).2.1),
             ("val/val_accuracy", (validate_model (runSteps lf opt epoch n_steps 0
                { st with model := st.model.train } (chunk bs (perm epoch train_items))).model
                valid_dl lf (epoch == epochs - 1) 0).2.2.1)]) true] := by
  obtain ⟨st', dlast, h1, h2, h3⟩ :=
    runEpoch_ok_detail lf opt valid_dl perm train_items bs n_steps epochs epoch st hne hns
  refine ⟨st', dlast, h1, h2, ?_, h3⟩
  intro d hd
  exact stepDicts_keys lf opt epoch _ _ _ _ _ d hd

/-- C8: a trial over non-empty training and validation sets emits exactly 5
validation records and exactly one predictions-table event, which is for the
first validation batch (batch index 0) and uncommitted; after only the first
4 epochs no table has been emitted, so the table belongs to the final epoch. -/
theorem trial_validation_and_table_events {α σ : Type}
    (trainFull validFull : List (Sample α)) (u : ℚ)
    (fwd : Bool → List ℚ → α → List ℚ) (initParams : List ℚ)
    (lf : List (List ℚ) → List Nat → ℚ)
    (opt : σ → List ℚ → List (Sample α) → σ × List ℚ) (os0 : σ)
    (perm : Nat → List (Sample α) → List (Sample α))
    (hperm : ∀ e l, (perm e l).length = l.length)
    (htrain : trainFull ≠ []) (hvalid : validFull ≠ []) :
    ∃ r b0,
      runTrial trainFull validFull u fwd initParams lf opt os0 perm = Except.ok r ∧
      r.events.countP isValLog = 5 ∧
      (validLoader (trialConfig u) validFull).batches.head? = some b0 ∧
      r.events.filter isTableEvent = [WEvent.logTable b0.length false] ∧
      ∃ st4,
        runEpochs lf opt (validLoader (trialConfig u) validFull) perm
          (trainLoader (trialConfig u) trainFull).dataset.items
          (trialConfig u).batch_size
          (n_steps_per_epoch (trialConfig u) (trainLoader (trialConfig u) trainFull))
          (trialConfig u).epochs 4 (initAcc fwd initParams os0) = Except.ok st4 ∧
        st4.events.filter isTableEvent = [] := by
  have hB := trial_hypotheses u trainFull perm hperm htrain
  have hvitems : (validLoader (trialConfig u) validFull).dataset.items ≠ [] :=
    get_dataloader_items_ne_nil validFull false (2 * (trialConfig u).batch_size) defaultStep
      (by decide) hvalid
  obtain ⟨b0, hb0⟩ : ∃ b0, (validLoader (trialConfig u) validFull).batches.head? = some b0 := by
    cases hvi : (validLoader (trialConfig u) validFull).dataset.items with
    | nil => exact absurd hvi hvitems
    | cons c t =>
        refine ⟨(c :: t).take (validLoader (trialConfig u) validFull).batch_size, ?_⟩
        show (chunk (validLoader (trialConfig u) validFull).batch_size
          (validLoader (trialConfig u) validFull).dataset.items).head? = _
        rw [hvi]
        exact chunk_head _ (by show (0:Nat) < 256; decide) c t
  have hep : (0:Nat) < (trialConfig u).epochs := by
    show (0:Nat) < 5
    decide
  obtain ⟨st5, new5, hrun5, hev5, hval5, hsum5, htab5⟩ :=
    runEpochs_spec lf opt (validLoader (trialConfig u) validFull) perm
      (trainLoader (trialConfig u) trainFull).dataset.items
      (trialConfig u).batch_size
      (n_steps_per_epoch (trialConfig u) (trainLoader (trialConfig u) trainFull))
      (trialConfig u).epochs hep hB b0 hb0 (initAcc fwd initParams os0)
      (trialConfig u).epochs le_rfl
  obtain ⟨st4, new4, hrun4, hev4, hval4, hsum4, htab4⟩ :=
    runEpochs_spec lf opt (validLoader (trialConfig u) validFull) perm
      (trainLoader (trialConfig u) trainFull).dataset.items
      (trialConfig u).batch_size
      (n_steps_per_epoch (trialConfig u) (trainLoader (trialConfig u) trainFull))
      (trialConfig u).epochs hep hB b0 hb0 (initAcc fwd initParams os0)
      4 (by show (4:Nat) ≤ 5; decide)
  have hdone : runTrial trainFull validFull u fwd initParams lf opt os0 perm =
      Except.ok { st5 with events := st5.events ++
        [WEvent.summary "test_accuracy" (4 / 5), WEvent.finish] } := by
    unfold runTrial
    rw [hrun5]
  refine ⟨_, b0, hdone, ?_, hb0, ?_, st4, hrun4, ?_⟩
  · show (st5.events ++
      [WEvent.summary "test_accuracy" (4 / 5), WEvent.finish]).countP isValLog = 5
    rw [hev5, List.countP_append, List.countP_append]
    have h1 : List.countP isValLog (initAcc fwd initParams os0 : TrialAcc α σ).events = 0 := rfl
    have h2 : List.countP isValLog
        [WEvent.summary "test_accuracy" (4 / 5), WEvent.finish] = 0 := rfl
    have he : (trialConfig u).epochs = 5 := rfl
    rw [h1, h2, hval5, he]
  · show (st5.events ++
      [WEvent.summary "test_accuracy" (4 / 5), WEvent.finish]).filter isTableEvent =
      [WEvent.logTable b0.length false]
    rw [hev5, List.filter_append, List.filter_append]
    have h1 : List.filter isTableEvent (initAcc fwd initParams os0 : TrialAcc α σ).events = [] := rfl
    have h2 : List.filter isTableEvent
        [WEvent.summary "test_accuracy" (4 / 5), WEvent.finish] = [] := rfl
    rw [h1, h2, htab5, if_pos rfl]
    simp
  · rw [hev4, List.filter_append]
    have h1 : List.filter isTableEvent (initAcc fwd initParams os0 : TrialAcc α σ).events = [] := rfl
    have he : (trialConfig u).epochs = 5 := rfl
    rw [he] at htab4
    rw [h1, htab4, if_neg (by decide : ¬(4 = 5))]
    rfl

/-- C9: in every completed trial the summary scalar `test_accuracy` is set
exactly once, with the constant value 0.8, after all epochs, and the logging
session is closed (`wandb.finish`) right after it. -/
theorem trial_summary_once {α σ : Type}
    (trainFull validFull : List (Sample α)) (u : ℚ)
    (fwd : Bool → List ℚ → α → List ℚ) (initParams : List ℚ)
    (lf : List (List ℚ) → List Nat → ℚ)
    (opt : σ → List ℚ → List (Sample α) → σ × List ℚ) (os0 : σ)
    (perm : Nat → List (Sample α) → List (Sample α))
    (hperm : ∀ e l, (perm e l).length = l.length)
    (htrain : trainFull ≠ []) (hvalid : validFull ≠ []) :
    ∃ r pre,
      runTrial trainFull validFull u fwd initParams lf opt os0 perm = Except.ok r ∧
      r.events = pre ++ [WEvent.summary "test_accuracy" (4 / 5), WEvent.finish] ∧
      r.events.countP isSummaryEvent = 1 := by
  have hB := trial_hypotheses u trainFull perm hperm htrain
  have hvitems : (validLoader (trialConfig u) validFull).dataset.items ≠ [] :=
    get_dataloader_items_ne_nil validFull false (2 * (trialConfig u).batch_size) defaultStep
      (by decide) hvalid
  obtain ⟨b0, hb0⟩ : ∃ b0, (validLoader (trialConfig u) validFull).batches.head? = some b0 := by
    cases hvi : (validLoader (trialConfig u) validFull).dataset.items with
    | nil => exact absurd hvi hvitems
    | cons c t =>
        refine ⟨(c :: t).take (validLoader (trialConfig u) validFull).batch_size, ?_⟩
        show (chunk (validLoader (trialConfig u) validFull).batch_size
          (validLoader (trialConfig u) validFull).dataset.items).head? = _
        rw [hvi]
        exact chunk_head _ (by show (0:Nat) < 256; decide) c t
  have hep : (0:Nat) < (trialConfig u).epochs := by
    show (0:Nat) < 5
    decide
  obtain ⟨st5, new5, hrun5, hev5, hval5, hsum5, htab5⟩ :=
    runEpochs_spec lf opt (validLoader (trialConfig u) validFull) perm
      (trainLoader (trialConfig u) trainFull).dataset.items
      (trialConfig u).batch_size
      (n_steps_per_epoch (trialConfig u) (trainLoader (trialConfig u) trainFull))
      (trialConfig u).epochs hep hB b0 hb0 (initAcc fwd initParams os0)
      (trialConfig u).epochs le_rfl
  have hdone : runTrial trainFull validFull u fwd initParams lf opt os0 perm =
      Except.ok { st5 with events := st5.events ++
        [WEvent.summary "test_accuracy" (4 / 5), WEvent.finish] } := by
    unfold runTrial
    rw [hrun5]
  refine ⟨_, st5.events, hdone, rfl, ?_⟩
  show (st5.events ++
    [WEvent.summary "test_accuracy" (4 / 5), WEvent.finish]).countP isSummaryEvent = 1
  rw [hev5, List.countP_append, List.countP_append]
  have h1 : List.countP isSummaryEvent (initAcc fwd initParams os0 : TrialAcc α σ).events = 0 := rfl
  have h2 : List.countP isSummaryEvent
      [WEvent.summary "test_accuracy" (4 / 5), WEvent.finish] = 1 := rfl
  rw [h1, h2, hsum5]

/-! ### Concrete witnesses -/

/-- Witness for C3 on a one-example validation set classified correctly. -/
theorem validate_model_accuracy_witness :
    ((0:Nat) < 1 ∧ (0:Nat) < 1 ∧ [(⟨(), 0⟩ : Sample Unit)] ≠ []) ∧
    (0 ≤ (validate_model (⟨[], false, fun _ _ _ => [1, 0]⟩ : Model Unit)
        (get_dataloader [(⟨(), 0⟩ : Sample Unit)] false 1 1) (fun _ _ => (0:ℚ)) false 0).2.2.1 ∧
      (validate_model (⟨[], false, fun _ _ _ => [1, 0]⟩ : Model Unit)
        (get_dataloader [(⟨(), 0⟩ : Sample Unit)] false 1 1) (fun _ _ => (0:ℚ)) false 0).2.2.1 ≤ 1 ∧
      (validate_model (⟨[], false, fun _ _ _ => [1, 0]⟩ : Model Unit)
        (get_dataloader [(⟨(), 0⟩ : Sample Unit)] false 1 1) (fun _ _ => (0:ℚ)) false 0).2.2.1 =
        (((get_dataloader [(⟨(), 0⟩ : Sample Unit)] false 1 1).dataset.items.countP fun s =>
            argmax ((⟨[], false, fun _ _ _ => [1, 0]⟩ : Model Unit).forward false
              (⟨[], false, fun _ _ _ => [1, 0]⟩ : Model Unit).params s.image) == s.label : Nat) : ℚ) /
          (((get_dataloader [(⟨(), 0⟩ : Sample Unit)] false 1 1).dataset.length : Nat) : ℚ)) :=
  ⟨⟨by decide, by decide, by decide⟩,
    validate_model_accuracy (⟨[], false, fun _ _ _ => [1, 0]⟩ : Model Unit)
      [(⟨(), 0⟩ : Sample Unit)] 1 1 (fun _ _ => (0:ℚ)) false 0
      (by decide) (by decide) (by decide)⟩

/-- Witness for C4 on a 3-example dataset with stride 2. -/
theorem get_dataloader_subsample_spec_witness :
    ((0:Nat) < 2) ∧
    ((get_dataloader [(⟨(), 0⟩ : Sample Unit), ⟨(), 1⟩, ⟨(), 2⟩] false 1 2).dataset.length = 2 ∧
      (∀ i, i < 2 →
        (get_dataloader [(⟨(), 0⟩ : Sample Unit), ⟨(), 1⟩, ⟨(), 2⟩] false 1 2).dataset.getItem i =
          [(⟨(), 0⟩ : Sample Unit), ⟨(), 1⟩, ⟨(), 2⟩][i * 2]?) ∧
      defaultStep = 5) :=
  ⟨by decide,
    get_dataloader_subsample_spec [(⟨(), 0⟩ : Sample Unit), ⟨(), 1⟩, ⟨(), 2⟩] false 1 2 (by decide)⟩

/-- Witness for C5 at dropout probability 1/2. -/
theorem get_model_shape_witness :
    ((0:ℚ) ≤ 1 / 2 ∧ (1:ℚ) / 2 < 1) ∧
    (runShape (get_model (1 / 2)) [28, 28] = some [10] ∧
      get_model (1 / 2) = [Layer.flatten, Layer.linear 784 256, Layer.batchNorm1d 256,
        Layer.relu, Layer.dropout (1 / 2), Layer.linear 256 10]) :=
  ⟨⟨by norm_num, by norm_num⟩, get_model_shape (1 / 2) (by norm_num) (by norm_num)⟩

/-- Witness for C6 at the raw draw u = 1/2. -/
theorem trial_dropout_in_range_witness :
    ((0:ℚ) ≤ 1 / 2 ∧ (1:ℚ) / 2 < 1) ∧
    (1 / 100 ≤ (trialConfig (1 / 2)).dropout ∧ (trialConfig (1 / 2)).dropout < 4 / 5) :=
  ⟨⟨by norm_num, by norm_num⟩, trial_dropout_in_range (1 / 2) (by norm_num) (by norm_num)⟩

/-- Witness for C2 on a one-batch epoch (the per-step list is empty and the
single step's metrics are logged merged with the validation metrics). -/
theorem runEpoch_step_logging_witness :
    (chunk 1 [(⟨(), 0⟩ : Sample Unit)] ≠ [] ∧
      1 = (chunk 1 [(⟨(), 0⟩ : Sample Unit)]).length) ∧
    ∃ (st' : TrialAcc Unit Unit) (dlast : List (String × ℚ)),
      (stepDicts (fun _ _ => (0:ℚ)) (fun _ p _ => (((), p) : Unit × List ℚ)) 0
          (initAcc (fun _ _ _ => ([] : List ℚ)) [] () : TrialAcc Unit Unit).model.train
          (initAcc (fun _ _ _ => ([] : List ℚ)) [] () : TrialAcc Unit Unit).optState
          (initAcc (fun _ _ _ => ([] : List ℚ)) [] () : TrialAcc Unit Unit).example_ct
          (initAcc (fun _ _ _ => ([] : List ℚ)) [] () : TrialAcc Unit Unit).step_ct
          (chunk 1 [(⟨(), 0⟩ : Sample Unit)])).getLast? = some dlast ∧
      runEpoch (fun _ _ => (0:ℚ)) (fun _ p _ => (((), p) : Unit × List ℚ))
          (⟨⟨[], []⟩, 2, false⟩ : Loader Unit) (fun _ l => l) [(⟨(), 0⟩ : Sample Unit)]
          1 1 1 0 (initAcc (fun _ _ _ => ([] : List ℚ)) [] () : TrialAcc Unit Unit) = Except.ok st' ∧
      (∀ d ∈ stepDicts (fun _ _ => (0:ℚ)) (fun _ p _ => (((), p) : Unit × List ℚ)) 0
          (initAcc (fun _ _ _ => ([] : List ℚ)) [] () : TrialAcc Unit Unit).model.train
          (initAcc (fun _ _ _ => ([] : List ℚ)) [] () : TrialAcc Unit Unit).optState
          (initAcc (fun _ _ _ => ([] : List ℚ)) [] () : TrialAcc Unit Unit).example_ct
          (initAcc (fun _ _ _ => ([] : List ℚ)) [] () : TrialAcc Unit Unit).step_ct
          (chunk 1 [(⟨(), 0⟩ : Sample Unit)]),
        d.map Prod.fst = ["train/train_loss", "train/epoch", "train/example_ct", "train/step_ct"]) ∧
      st'.events =
        (initAcc (fun _ _ _ => ([] : List ℚ)) [] () : TrialAcc Unit Unit).events ++
          ((stepDicts (fun _ _ => (0:ℚ)) (fun _ p _ => (((), p) : Unit × List ℚ)) 0
              (initAcc (fun _ _ _ => ([] : List ℚ)) [] () : TrialAcc Unit Unit).model.train
              (initAcc (fun _ _ _ => ([] : List ℚ)) [] () : TrialAcc Unit Unit).optState
              (initAcc (fun _ _ _ => ([] : List ℚ)) [] () : TrialAcc Unit Unit).example_ct
              (initAcc (fun _ _ _ => ([] : List ℚ)) [] () : TrialAcc Unit Unit).step_ct
              (chunk 1 [(⟨(), 0⟩ : Sample Unit)])).dropLast.map fun d => WEvent.log d true) ++
          (validate_model (runSteps (fun _ _ => (0:ℚ)) (fun _ p _ => (((), p) : Unit × List ℚ)) 0 1 0
              { (initAcc (fun _ _ _ => ([] : List ℚ)) [] () : TrialAcc Unit Unit) with
                model := (initAcc (fun _ _ _ => ([] : List ℚ)) [] () : TrialAcc Unit Unit).model.train }
              (chunk 1 [(⟨(), 0⟩ : Sample Unit)])).model
            (⟨⟨[], []⟩, 2, false⟩ : Loader Unit) (fun _ _ => (0:ℚ)) (0 == 1 - 1) 0).2.2.2 ++
          [WEvent.log (dlast ++
            [("val/val_loss", (validate_model (runSteps (fun _ _ => (0:ℚ))
                (fun _ p _ => (((), p) : Unit × List ℚ)) 0 1 0
                { (initAcc (fun _ _ _ => ([] : List ℚ)) [] () : TrialAcc Unit Unit) with
                  model := (initAcc (fun _ _ _ => ([] : List ℚ)) [] () : TrialAcc Unit Unit).model.train }
                (chunk 1 [(⟨(), 0⟩ : Sample Unit)])).model
                (⟨⟨[], []⟩, 2, false⟩ : Loader Unit) (fun _ _ => (0:ℚ)) (0 == 1 - 1) 0).2.1),
             ("val/val_accuracy", (validate_model (runSteps (fun _ _ => (0:ℚ))
                (fun _ p _ => (((), p) : Unit × List ℚ)) 0 1 0
                { (initAcc (fun _ _ _ => ([] : List ℚ)) [] () : TrialAcc Unit Unit) with
                  model := (initAcc (fun _ _ _ => ([] : List ℚ)) [] () : TrialAcc Unit Unit).model.train }
                (chunk 1 [(⟨(), 0⟩ : Sample Unit)])).model
                (⟨⟨[], []⟩, 2, false⟩ : Loader Unit) (fun _ _ => (0:ℚ)) (0 == 1 - 1) 0).2.2.1)]) true] :=
  ⟨⟨by decide, by decide⟩,
    runEpoch_step_logging (fun _ _ => (0:ℚ)) (fun _ p _ => ((), p))
      (⟨⟨[], []⟩, 2, false⟩ : Loader Unit) (fun _ l => l) [(⟨(), 0⟩ : Sample Unit)]
      1 1 1 0 (initAcc (fun _ _ _ => ([] : List ℚ)) [] () : TrialAcc Unit Unit) (by decide) (by decide)⟩

/-- Witness for C8 on one-example train and validation sets. -/
theorem trial_validation_and_table_events_witness :
    ((∀ (e : Nat) (l : List (Sample Unit)),
        ((fun _ l => l : Nat → List (Sample Unit) → List (Sample Unit)) e l).length = l.length) ∧
      [(⟨(), 0⟩ : Sample Unit)] ≠ [] ∧ [(⟨(), 0⟩ : Sample Unit)] ≠ []) ∧
    ∃ (r : TrialAcc Unit Unit) (b0 : List (Sample Unit)),
      runTrial [(⟨(), 0⟩ : Sample Unit)] [⟨(), 0⟩] 0 (fun _ _ _ => ([] : List ℚ)) []
        (fun _ _ => (0:ℚ)) (fun _ p _ => (((), p) : Unit × List ℚ)) () (fun _ l => l) =
        Except.ok r ∧
      r.events.countP isValLog = 5 ∧
      (validLoader (trialConfig 0) [(⟨(), 0⟩ : Sample Unit)]).batches.head? = some b0 ∧
      r.events.filter isTableEvent = [WEvent.logTable b0.length false] ∧
      ∃ st4,
        runEpochs (fun _ _ => (0:ℚ)) (fun _ p _ => (((), p) : Unit × List ℚ))
          (validLoader (trialConfig 0) [(⟨(), 0⟩ : Sample Unit)]) (fun _ l => l)
          (trainLoader (trialConfig 0) [(⟨(), 0⟩ : Sample Unit)]).dataset.items
          (trialConfig 0).batch_size
          (n_steps_per_epoch (trialConfig 0) (trainLoader (trialConfig 0) [(⟨(), 0⟩ : Sample Unit)]))
          (trialConfig 0).epochs 4 (initAcc (fun _ _ _ => ([] : List ℚ)) [] ()) = Except.ok st4 ∧
        st4.events.filter isTableEvent = [] :=
  ⟨⟨fun _ _ => rfl, by decide, by decide⟩,
    trial_validation_and_table_events [(⟨(), 0⟩ : Sample Unit)] [⟨(), 0⟩] 0
      (fun _ _ _ => ([] : List ℚ)) [] (fun _ _ => (0:ℚ)) (fun _ p _ => ((), p)) ()
      (fun _ l => l) (fun _ _ => rfl) (by decide) (by decide)⟩

/-- Witness for C9 on one-example train and validation sets. -/
theorem trial_summary_once_witness :
    ((∀ (e : Nat) (l : List (Sample Unit)),
        ((fun _ l => l : Nat → List (Sample Unit) → List (Sample Unit)) e l).length = l.length) ∧
      [(⟨(), 0⟩ : Sample Unit)] ≠ [] ∧ [(⟨(), 0⟩ : Sample Unit)] ≠ []) ∧
    ∃ (r : TrialAcc Unit Unit) (pre : List WEvent),
      runTrial [(⟨(), 0⟩ : Sample Unit)] [⟨(), 0⟩] 0 (fun _ _ _ => ([] : List ℚ)) []
        (fun _ _ => (0:ℚ)) (fun _ p _ => (((), p) : Unit × List ℚ)) () (fun _ l => l) =
        Except.ok r ∧
      r.events = pre ++ [WEvent.summary "test_accuracy" (4 / 5), WEvent.finish] ∧
      r.events.countP isSummaryEvent = 1 :=
  ⟨⟨fun _ _ => rfl, by decide, by decide⟩,
    trial_summary_once [(⟨(), 0⟩ : Sample Unit)] [⟨(), 0⟩] 0
      (fun _ _ _ => ([] : List ℚ)) [] (fun _ _ => (0:ℚ)) (fun _ p _ => ((), p)) ()
      (fun _ l => l) (fun _ _ => rfl) (by decide) (by decide)⟩

end Mnist
